import Mathlib

/-! Verification of the reactive store core of `agent_lib`.

This file gives a shallow embedding of the store pipeline implemented in
`src/agent_lib/store` (Store.py, Action.py, AsyncAction.py, Subscribers.py,
snapshot.py, Agents.py) and proves properties of it.

Modelling conventions:
* The state tree owned by a store is a finite tree of string-keyed maps with
  numeric leaves (`Tree`); a store object itself is its attribute map
  (`StoreTree`).  Mutation is explicit: a handler returns the new tree.
* `copy.deepcopy` (snapshot.py) is the identity on pure values, since
  mutation is explicit in the model.
* DeepDiff with `include_obj_callback` is modelled by `diffT`, a structural
  diff that consults a boolean filter on the normalized (dot-joined) path of
  every visited child and reports changed / added / removed paths.
* Python exceptions are modelled with `Except`; a raised error is an
  `Except.error` value propagated to the caller.
* Subscriber callbacks are modelled as functions from a delta to
  `Except E Unit` together with an identifier, so that the order and number
  of invocations, and an exception thrown by a callback, are observable.
-/

namespace AgentLib

/-- Dot-notation path segments, e.g. `["data", "user_info"]`. -/
abbrev Seg := String

/-- Dot-join a list of segments into the normalized path string
(`".".join(parse_path(path))` in Subscribers.py / Store.py), represented as a
list of characters. -/
def dotJoin : List Seg → List Char
  | [] => []
  | [s] => s.data
  | s :: s2 :: rest => s.data ++ '.' :: dotJoin (s2 :: rest)

/-- Python substring containment `needle in hay` on strings
(`str.__contains__`): true iff `needle` occurs contiguously in `hay`;
the empty needle is contained in every string. -/
def isSubstr (needle : List Char) : List Char → Bool
  | [] => needle.isEmpty
  | c :: rest => needle.isPrefixOf (c :: rest) || isSubstr needle rest

theorem isSubstr_correct (needle hay : List Char) :
    isSubstr needle hay = true ↔ needle <:+: hay := by
  induction hay with
  | nil =>
    simp only [isSubstr, List.isEmpty_iff]
    constructor
    · rintro rfl; exact List.infix_refl _
    · intro h
      exact List.eq_nil_of_infix_nil h
  | cons c rest ih =>
    simp only [isSubstr, Bool.or_eq_true, List.isPrefixOf_iff_prefix, ih,
      List.infix_cons_iff]

/-- A Delta in the model: the list of changed paths (as segment lists)
reported by the diff.  The `diff` attribute of a DeepDiff `Delta` being
empty/falsy corresponds to this list being `[]`. -/
abbrev DeltaM := List (List Seg)

/-- Subscribers.py `_make_affects`: pre-compute the normalized changed paths
of a delta, then answer queries by Python substring containment
(`if path in normalized`).  Returns `False` outright when there are no
normalized paths. -/
def make_affects (delta : DeltaM) : List Char → Bool :=
  let normalized_paths := delta.map dotJoin
  fun path =>
    if normalized_paths.isEmpty then false
    else normalized_paths.any (fun normalized => isSubstr path normalized)

/-- C7: for every non-empty Delta, the derived `affects(path)` query returns
`True` exactly when the queried path occurs as a contiguous substring
(`List.IsInfix`) of some normalized changed path — substring containment,
not a prefix/segment-aware rule. -/
theorem affects_iff_substring (delta : DeltaM) (hne : delta ≠ [])
    (path : List Char) :
    make_affects delta path = true ↔
      ∃ p ∈ delta, List.IsInfix path (dotJoin p) := by
  unfold make_affects
  have hne' : (delta.map dotJoin).isEmpty = false := by
    cases delta with
    | nil => exact absurd rfl hne
    | cons a l => simp [List.map]
  simp [hne', isSubstr_correct, List.IsInfix]

/-- Witness for C7 at a concrete input: the query `"name"` matches the
changed path `"user_name_x"` by pure substring containment (a false
positive for any segment-aware reading). -/
theorem affects_iff_substring_witness :
    make_affects [["user_name_x"]] "name".data = true ↔
      ∃ p ∈ [["user_name_x"]], List.IsInfix "name".data (dotJoin p) :=
  affects_iff_substring [["user_name_x"]] (by simp) "name".data

/-! State trees and the scope-filtered diff engine (Store.py) -/

/-- A state tree: nested string-keyed maps with integer leaves.  A Python
object's attribute dict, a `dict`, and a dataclass are all modelled as
`node`; scalar fields are `leaf`. -/
inductive Tree where
  | leaf (v : Int)
  | node (children : List (Seg × Tree))

/-- Key lookup in a children list (Python attribute / dict access). -/
def lookupT : List (Seg × Tree) → Seg → Option Tree
  | [], _ => none
  | (k, t) :: rest, key => if k = key then some t else lookupT rest key

/-- Changed paths contributed by keys present in `cs2` but absent from
`cs1` (DeepDiff `dictionary_item_added`), subject to the include filter. -/
def diffAdded (f : List Char → Bool) (pre : List Seg)
    (cs1 cs2 : List (Seg × Tree)) : List (List Seg) :=
  cs2.filterMap (fun kc =>
    if (lookupT cs1 kc.1).isNone && f (dotJoin (pre ++ [kc.1])) then
      some (pre ++ [kc.1])
    else none)

mutual

/-- DeepDiff with `include_obj_callback = f`, restricted to the tree model:
structural diff of two trees reporting the normalized paths of changed
leaves, type changes, and added/removed keys.  A child whose normalized path
the filter rejects is skipped entirely (not traversed, not reported). -/
def diffT (f : List Char → Bool) (pre : List Seg) : Tree → Tree → List (List Seg)
  | Tree.leaf v1, Tree.leaf v2 => if v1 = v2 then [] else [pre]
  | Tree.leaf _, Tree.node _ => [pre]
  | Tree.node _, Tree.leaf _ => [pre]
  | Tree.node cs1, Tree.node cs2 => diffKept f pre cs2 cs1 ++ diffAdded f pre cs1 cs2

/-- Diff contribution of the keys of the first tree: recurse on keys also
present in the second tree, report keys that disappeared
(`dictionary_item_removed`), all subject to the include filter. -/
def diffKept (f : List Char → Bool) (pre : List Seg) (cs2 : List (Seg × Tree)) :
    List (Seg × Tree) → List (List Seg)
  | [] => []
  | (k, c1) :: rest =>
      (if f (dotJoin (pre ++ [k])) then
        match lookupT cs2 k with
        | some c2 => diffT f (pre ++ [k]) c1 c2
        | none => [pre ++ [k]]
      else []) ++ diffKept f pre cs2 rest

end

/-- Scope declared by an action handler: a frozenset of dot-notation path
strings (Action.py), modelled as a list of normalized path strings. -/
abbrev Scope := List (List Char)

/-- The full-diff marker `"."` (Action.scope.full_diff). -/
def fullMarker : List Char := ['.']

/-- Store._make_scope_filter: a DeepDiff `include_obj_callback` that accepts
the root and any normalized path that starts with a declared scope path or
that some declared scope path starts with. -/
def scope_filter (scopes : Scope) (normalized : List Char) : Bool :=
  if normalized.isEmpty then true
  else scopes.any (fun s => s.isPrefixOf normalized || normalized.isPrefixOf s)

/-- A store object is its attribute map. -/
abbrev StoreTree := List (Seg × Tree)

/-- snapshot.py: `copy.deepcopy`; the identity on pure values, since the
model makes mutation explicit. -/
def snapshot (t : StoreTree) : StoreTree := t

/-- DeepDiff of two store objects (attribute maps). -/
def diffStore (f : List Char → Bool) (t1 t2 : StoreTree) : List (List Seg) :=
  diffT f [] (Tree.node t1) (Tree.node t2)

/-- Store._process_action: snapshot, run the handler (which mutates the
store and returns its scope), then return the empty Delta for an empty
scope, a full diff when the scope holds the `"."` marker, and a
scope-filtered diff otherwise. -/
def process_action {PL : Type} (handler : StoreTree → PL → StoreTree × Scope)
    (t : StoreTree) (payload : PL) : StoreTree × DeltaM :=
  let state_snapshot := snapshot t
  let t' := (handler t payload).1
  let scope := (handler t payload).2
  if scope.isEmpty then (t', [])
  else if fullMarker ∈ scope then
    (t', diffStore (fun _ => true) state_snapshot t')
  else
    (t', diffStore (scope_filter scope) state_snapshot t')

theorem mem_diffAdded_filter (f : List Char → Bool) (pre : List Seg)
    (cs1 cs2 : List (Seg × Tree)) :
    ∀ p ∈ diffAdded f pre cs1 cs2, f (dotJoin p) = true := by
  intro p hp
  simp only [diffAdded, List.mem_filterMap] at hp
  obtain ⟨kc, _, hif⟩ := hp
  split at hif
  · rename_i hguard
    cases hif
    have hg : (lookupT cs1 kc.1).isNone = true ∧ f (dotJoin (pre ++ [kc.1])) = true := by
      simpa [Bool.and_eq_true] using hguard
    exact hg.2
  · cases hif

mutual

theorem mem_diffT_filter (f : List Char → Bool) (pre : List Seg) :
    (t1 t2 : Tree) → ∀ p ∈ diffT f pre t1 t2, p = pre ∨ f (dotJoin p) = true
  | Tree.leaf v1, Tree.leaf v2 => by
      intro p hp
      rw [diffT] at hp
      split at hp
      · cases hp
      · left; simpa using hp
  | Tree.leaf _, Tree.node _ => by
      intro p hp
      rw [diffT] at hp
      left; simpa using hp
  | Tree.node _, Tree.leaf _ => by
      intro p hp
      rw [diffT] at hp
      left; simpa using hp
  | Tree.node cs1, Tree.node cs2 => by
      intro p hp
      rw [diffT] at hp
      rcases List.mem_append.mp hp with h | h
      · exact Or.inr (mem_diffKept_filter f pre cs2 cs1 p h)
      · exact Or.inr (mem_diffAdded_filter f pre cs1 cs2 p h)

theorem mem_diffKept_filter (f : List Char → Bool) (pre : List Seg)
    (cs2 : List (Seg × Tree)) :
    (l : List (Seg × Tree)) → ∀ p ∈ diffKept f pre cs2 l, f (dotJoin p) = true
  | [] => by
      intro p hp
      rw [diffKept] at hp
      cases hp
  | (k, c1) :: rest => by
      intro p hp
      rw [diffKept] at hp
      rcases List.mem_append.mp hp with h | h
      · split at h
        · rename_i hguard
          split at h
          · rename_i c2 hc2
            rcases mem_diffT_filter f (pre ++ [k]) c1 c2 p h with heq | hf
            · exact heq ▸ hguard
            · exact hf
          · have : p = pre ++ [k] := by simpa using h
            exact this ▸ hguard
        · cases h
      · exact mem_diffKept_filter f pre cs2 rest p h

end

/-- Monotonicity of `diffAdded` in the filter. -/
theorem diffAdded_mono {f g : List Char → Bool}
    (hfg : ∀ x, f x = true → g x = true) (pre : List Seg)
    (cs1 cs2 : List (Seg × Tree)) :
    ∀ p ∈ diffAdded f pre cs1 cs2, p ∈ diffAdded g pre cs1 cs2 := by
  intro p hp
  simp only [diffAdded, List.mem_filterMap] at hp ⊢
  obtain ⟨kc, hkc, hif⟩ := hp
  refine ⟨kc, hkc, ?_⟩
  split at hif
  · rename_i hguard
    cases hif
    have hg : (lookupT cs1 kc.1).isNone = true ∧ f (dotJoin (pre ++ [kc.1])) = true := by
      simpa [Bool.and_eq_true] using hguard
    rw [if_pos (by rw [hg.1, hfg _ hg.2]; rfl)]
  · cases hif

mutual

theorem diffT_mono {f g : List Char → Bool}
    (hfg : ∀ x, f x = true → g x = true) (pre : List Seg) :
    (t1 t2 : Tree) → ∀ p ∈ diffT f pre t1 t2, p ∈ diffT g pre t1 t2
  | Tree.leaf v1, Tree.leaf v2 => by
      intro p hp
      rw [diffT] at hp ⊢
      exact hp
  | Tree.leaf _, Tree.node _ => by
      intro p hp
      rw [diffT] at hp ⊢
      exact hp
  | Tree.node _, Tree.leaf _ => by
      intro p hp
      rw [diffT] at hp ⊢
      exact hp
  | Tree.node cs1, Tree.node cs2 => by
      intro p hp
      rw [diffT] at hp ⊢
      rcases List.mem_append.mp hp with h | h
      · exact List.mem_append.mpr (Or.inl (diffKept_mono hfg pre cs2 cs1 p h))
      · exact List.mem_append.mpr (Or.inr (diffAdded_mono hfg pre cs1 cs2 p h))

theorem diffKept_mono {f g : List Char → Bool}
    (hfg : ∀ x, f x = true → g x = true) (pre : List Seg)
    (cs2 : List (Seg × Tree)) :
    (l : List (Seg × Tree)) → ∀ p ∈ diffKept f pre cs2 l, p ∈ diffKept g pre cs2 l
  | [] => by
      intro p hp
      rw [diffKept] at hp
      cases hp
  | (k, c1) :: rest => by
      intro p hp
      rw [diffKept] at hp
      rw [diffKept]
      rcases List.mem_append.mp hp with h | h
      · refine List.mem_append.mpr (Or.inl ?_)
        split at h
        · rename_i hguard
          rw [if_pos (hfg _ hguard)]
          split at h
          · rename_i c2 hc2
            exact diffT_mono hfg (pre ++ [k]) c1 c2 p h
          · rename_i hc2
            exact h
        · cases h
      · exact List.mem_append.mpr (Or.inr (diffKept_mono hfg pre cs2 rest p h))

end

theorem prefixOf_correct {l1 l2 : List Char} :
    l1.isPrefixOf l2 = true ↔ List.IsPrefix l1 l2 :=
  List.isPrefixOf_iff_prefix

/-- C3: for every dispatch of a mutation whose handler returns a non-empty
scope not containing the full-tree marker, the resulting Delta contains only
paths within or under the scope: every reported path is a string prefix of,
or is string-prefixed by, some declared scope path. -/
theorem scope_correctness {PL : Type} (handler : StoreTree → PL → StoreTree × Scope)
    (t : StoreTree) (payload : PL)
    (hne : (handler t payload).2 ≠ [])
    (hfull : fullMarker ∉ (handler t payload).2) :
    ∀ p ∈ (process_action handler t payload).2,
      ∃ s ∈ (handler t payload).2,
        List.IsPrefix s (dotJoin p) ∨ List.IsPrefix (dotJoin p) s := by
  intro p hp
  have hempty : ((handler t payload).2).isEmpty = false := by
    cases h : (handler t payload).2 <;> simp_all
  have hdelta : (process_action handler t payload).2
      = diffStore (scope_filter (handler t payload).2) t (handler t payload).1 := by
    simp [process_action, snapshot, hempty, hfull]
  rw [hdelta] at hp
  have hsf : scope_filter ((handler t payload).2) (dotJoin p) = true := by
    unfold diffStore at hp
    rw [diffT] at hp
    rcases List.mem_append.mp hp with h | h
    · exact mem_diffKept_filter _ [] _ _ p h
    · exact mem_diffAdded_filter _ [] _ _ p h
  unfold scope_filter at hsf
  split at hsf
  · rename_i hJoin
    obtain ⟨s, hs⟩ := List.exists_mem_of_ne_nil _ hne
    have hnil : dotJoin p = [] := by simpa [List.isEmpty_iff] using hJoin
    exact ⟨s, hs, Or.inr (by rw [hnil]; exact List.nil_prefix)⟩
  · rw [List.any_eq_true] at hsf
    obtain ⟨s, hs, hpre⟩ := hsf
    have hpre' : s.isPrefixOf (dotJoin p) = true ∨ (dotJoin p).isPrefixOf s = true := by
      simpa using hpre
    rcases hpre' with h | h
    · exact ⟨s, hs, Or.inl (prefixOf_correct.mp h)⟩
    · exact ⟨s, hs, Or.inr (prefixOf_correct.mp h)⟩

/-- Witness for C3 at a concrete dispatch: scope `{"count"}`, with the
handler changing `count` from `0` to `8`; the single reported path
`["count"]` is inside the scope. -/
theorem scope_correctness_witness :
    ∃ s ∈ [ "count".data ],
      List.IsPrefix s (dotJoin ["count"]) ∨ List.IsPrefix (dotJoin ["count"]) s := by
  have h := scope_correctness
      (fun _ _ => ([("count", Tree.leaf 8), ("other", Tree.leaf 5)], ["count".data]))
      [("count", Tree.leaf 0), ("other", Tree.leaf 5)] ()
      (by simp) (by simp [fullMarker])
  exact h ["count"] (by
    simp +decide [process_action, snapshot, diffStore, diffT, diffKept, diffAdded,
      lookupT, scope_filter, dotJoin, fullMarker])

/-- C8: a mutation declaring the full-tree marker yields a Delta that is a
superset of (or equal to) the Delta the same underlying change (same
mutated tree) would produce under any narrower scope declaration. -/
theorem full_diff_superset {PL : Type} (t t' : StoreTree) (scope : Scope)
    (payload : PL) (p : List Seg)
    (hp : p ∈ (process_action (fun _ _ => (t', scope)) t payload).2) :
    p ∈ (process_action (fun _ _ => (t', [fullMarker])) t payload).2 := by
  have hR : (process_action (fun _ _ => (t', [fullMarker])) t payload).2
      = diffStore (fun _ => true) t t' := by
    simp [process_action, snapshot]
  rw [hR]
  by_cases hemp : scope.isEmpty
  · simp [process_action, hemp] at hp
  · by_cases hfm : fullMarker ∈ scope
    · have hL : (process_action (fun _ _ => (t', scope)) t payload).2
          = diffStore (fun _ => true) t t' := by
        simp [process_action, snapshot, hemp, hfm]
      rw [hL] at hp
      exact hp
    · have hL : (process_action (fun _ _ => (t', scope)) t payload).2
          = diffStore (scope_filter scope) t t' := by
        simp [process_action, snapshot, hemp, hfm]
      rw [hL] at hp
      exact diffT_mono (fun x _ => rfl) [] _ _ p hp

/-- Witness for C8 at a concrete change: the path reported under the narrow
scope `{"a"}` is also reported under the full-tree marker. -/
theorem full_diff_superset_witness :
    ["a"] ∈ (process_action (fun _ _ => ([("a", Tree.leaf 1)], [fullMarker]))
      [("a", Tree.leaf 0)] ()).2 :=
  full_diff_superset [("a", Tree.leaf 0)] [("a", Tree.leaf 1)]
    ["a".data] () ["a"] (by
      simp +decide [process_action, snapshot, diffStore, diffT, diffKept, diffAdded,
        lookupT, scope_filter, dotJoin, fullMarker])

/-! Subscribers and the notification pipeline (Store.py) -/

/-- A subscriber: an identifier (object identity of the callback) together
with the callback, which receives the Delta and either returns
(`Except.ok`) or throws (`Except.error`). -/
abbrev Subscriber (E : Type) := Nat × (DeltaM → Except E Unit)

/-- Inner loop of Store._notify_subscribers: invoke each callback in list
order with the delta, recording the identifiers invoked; an exception from
a callback aborts the loop and propagates. -/
def notifyGo {E : Type} (delta : DeltaM) : List (Subscriber E) → List Nat × Option E
  | [] => ([], none)
  | (i, c) :: rest =>
      match c delta with
      | Except.error e => ([i], some e)
      | Except.ok _ =>
          let r := notifyGo delta rest
          (i :: r.1, r.2)

/-- Store._notify_subscribers: return immediately when the delta is empty
(no callback runs); otherwise run the callbacks in subscription order. -/
def notify_subscribers {E : Type} (subs : List (Subscriber E)) (delta : DeltaM) :
    List Nat × Option E :=
  if delta.isEmpty then ([], none)
  else notifyGo delta subs

/-- One bound-action dispatch (Store._bind_actions): process the action,
then notify the subscribers with the resulting delta. -/
def dispatch {E PL : Type} (subs : List (Subscriber E))
    (handler : StoreTree → PL → StoreTree × Scope) (t : StoreTree) (payload : PL) :
    StoreTree × (List Nat × Option E) :=
  let r := process_action handler t payload
  (r.1, notify_subscribers subs r.2)

/-- Repeated dispatch of the same action; returns the final tree and the
concatenation of all subscriber invocations over all the rounds. -/
def dispatchN {E PL : Type} (subs : List (Subscriber E))
    (handler : StoreTree → PL → StoreTree × Scope) (payload : PL) :
    Nat → StoreTree → StoreTree × List Nat
  | 0, t => (t, [])
  | Nat.succ n, t =>
      let r := dispatch subs handler t payload
      let r2 := dispatchN subs handler payload n r.1
      (r2.1, r.2.1 ++ r2.2)

theorem process_action_empty_scope {PL : Type}
    (handler : StoreTree → PL → StoreTree × Scope) (t : StoreTree) (payload : PL)
    (h : (handler t payload).2 = []) :
    process_action handler t payload = ((handler t payload).1, []) := by
  simp [process_action, snapshot, h]

/-- C4: a dispatch whose handler returns the empty scope returns
immediately: no subscriber is ever notified, for any number of repeated
dispatches; likewise any empty Delta suppresses notification outright. -/
theorem empty_scope_no_notification {E PL : Type} (subs : List (Subscriber E))
    (handler : StoreTree → PL → StoreTree × Scope) (payload : PL)
    (hscope : ∀ t, (handler t payload).2 = []) :
    (∀ n t, (dispatchN subs handler payload n t).2 = [])
    ∧ notify_subscribers subs [] = ([], none) := by
  constructor
  · intro n
    induction n with
    | zero => intro t; rfl
    | succ n ih =>
      intro t
      have hd : dispatch (E := E) subs handler t payload
          = ((handler t payload).1, ([], none)) := by
        simp [dispatch, process_action_empty_scope handler t payload (hscope t),
          notify_subscribers]
      simp [dispatchN, hd, ih]
  · rfl

/-- Witness for C4: three repeated dispatches of an empty-scope action on a
store with one subscriber produce zero subscriber invocations. -/
theorem empty_scope_no_notification_witness :
    (dispatchN (E := Unit) [(0, fun _ => Except.ok ())]
      (fun (t : StoreTree) (_ : Unit) => (t, ([] : Scope))) () 3 []).2 = [] :=
  (empty_scope_no_notification [(0, fun _ => Except.ok ())]
    (fun t _ => (t, [])) () (fun _ => rfl)).1 3 []

theorem notifyGo_all_ok {E : Type} (delta : DeltaM) :
    ∀ subs : List (Subscriber E), (∀ s ∈ subs, s.2 delta = Except.ok ()) →
      notifyGo delta subs = (subs.map Prod.fst, none)
  | [], _ => rfl
  | (i, c) :: rest, h => by
      have hc : c delta = Except.ok () := h (i, c) (List.mem_cons_self _ _)
      have hrest := notifyGo_all_ok delta rest (fun s hs => h s (List.mem_cons_of_mem _ hs))
      simp [notifyGo, hc, hrest]

theorem notifyGo_error {E : Type} (delta : DeltaM) (i : Nat)
    (c : DeltaM → Except E Unit) (rear : List (Subscriber E)) (e : E) :
    ∀ front : List (Subscriber E), (∀ s ∈ front, s.2 delta = Except.ok ()) →
      c delta = Except.error e →
      notifyGo delta (front ++ (i, c) :: rear) = (front.map Prod.fst ++ [i], some e)
  | [], _, hc => by simp [notifyGo, hc]
  | (j, cj) :: rest, h, hc => by
      have hcj : cj delta = Except.ok () := h (j, cj) (List.mem_cons_self _ _)
      have hrest := notifyGo_error delta i c rear e rest
        (fun s hs => h s (List.mem_cons_of_mem _ hs)) hc
      simp [notifyGo, hcj, hrest]

/-- C6: with a non-empty delta every currently registered callback is
invoked synchronously, exactly once, in subscription order; and an
exception thrown by one callback propagates to the dispatch caller,
preventing the remaining callbacks of that round from running. -/
theorem notify_order_and_propagation {E : Type} (subs : List (Subscriber E))
    (delta : DeltaM) (hne : delta ≠ []) :
    ((∀ s ∈ subs, s.2 delta = Except.ok ()) →
        notify_subscribers subs delta = (subs.map Prod.fst, none))
    ∧ ∀ (front : List (Subscriber E)) (i : Nat) (c : DeltaM → Except E Unit)
        (rear : List (Subscriber E)) (e : E),
        subs = front ++ (i, c) :: rear →
        (∀ s ∈ front, s.2 delta = Except.ok ()) →
        c delta = Except.error e →
        notify_subscribers subs delta = (front.map Prod.fst ++ [i], some e) := by
  have hempty : delta.isEmpty = false := by
    cases delta <;> simp_all
  constructor
  · intro h
    simp only [notify_subscribers, hempty, Bool.false_eq_true, if_false]
    exact notifyGo_all_ok delta subs h
  · intro front i c rear e hsubs h hc
    simp only [notify_subscribers, hempty, Bool.false_eq_true, if_false]
    rw [hsubs]
    exact notifyGo_error delta i c rear e front h hc

/-- Witness for C6: three subscribers, the middle one throwing; the first
two are invoked in order, the error propagates, the third never runs. -/
theorem notify_order_and_propagation_witness :
    notify_subscribers
      [(0, fun _ => Except.ok ()), (1, fun _ => Except.error "boom"),
        (2, fun _ => Except.ok ())] [["x"]] = ([0, 1], some "boom") := by
  have h := notify_order_and_propagation (E := String)
      [(0, fun _ => Except.ok ()), (1, fun _ => Except.error "boom"),
        (2, fun _ => Except.ok ())] [["x"]] (by simp)
  exact h.2 [(0, fun _ => Except.ok ())] 1 (fun _ => Except.error "boom")
    [(2, fun _ => Except.ok ())] "boom" rfl
    (by
      intro s hs
      simp only [List.mem_singleton] at hs
      subst hs
      rfl) rfl

/-! Subscription handles (Store.subscribe, Subscribers.remove) -/

/-- Raised by Python `list.remove(x)` when `x` is not present. -/
inductive RemoveError where
  | valueErrorNotInList
deriving DecidableEq

/-- Python `list.remove(x)`: delete the first occurrence (by equality);
raise `ValueError` when the element is not present.  Callbacks are
identified by object identity, modelled as numeric identifiers. -/
def list_remove (x : Nat) : List Nat → Except RemoveError (List Nat)
  | [] => Except.error RemoveError.valueErrorNotInList
  | y :: ys => if y = x then Except.ok ys
      else (list_remove x ys).map (fun r => y :: r)

/-- Store.subscribe: append the callback to the subscriber list; the
returned unsubscribe handle is a closure running
`self._subscribers.remove(callback)` against the then-current list. -/
def subscribe (subs : List Nat) (cb : Nat) :
    List Nat × (List Nat → Except RemoveError (List Nat)) :=
  (subs ++ [cb], fun current => list_remove cb current)

/-- C5 (code bug): the unsubscribe handle removes the callback on its first
call — with another subscriber untouched — but calling the same handle a
second time (the callback is no longer in the list) raises `ValueError`
from `list.remove` instead of being the safe no-op the spec requires. -/
theorem unsubscribe_twice_raises :
    (subscribe [5] 7).2 (subscribe [5] 7).1 = Except.ok [5]
    ∧ (subscribe [5] 7).2 [5] = Except.error RemoveError.valueErrorNotInList := by
  exact ⟨rfl, rfl⟩

/-! Async actions (AsyncAction.py, Store._run_async_action) -/

/-- An async action: the async read-phase handler (read-only, so it returns
only a result or an exception), the success finalizer, and the subclass's
`on_error` override when the subclass declares one. -/
structure AsyncActionM (PL R Exn : Type) where
  handler : StoreTree → PL → Except Exn R
  on_success : StoreTree → R → StoreTree × Scope
  on_error_override : Option (StoreTree → Exn → StoreTree × Scope)

/-- AsyncAction.on_error default implementation: returns the empty
frozenset — a no-op. -/
def default_on_error {Exn : Type} (t : StoreTree) (_ : Exn) : StoreTree × Scope :=
  (t, [])

/-- Python attribute lookup `async_action.on_error`: the subclass override
when one was declared, otherwise the default implementation inherited from
the `AsyncAction` base class. -/
def AsyncActionM.on_error {PL R Exn : Type} (a : AsyncActionM PL R Exn) :
    StoreTree → Exn → StoreTree × Scope :=
  a.on_error_override.getD default_on_error

/-- Truthiness of `async_action.on_error` in the guard
`if async_action.on_error:`: attribute lookup always yields a bound method
(the base class supplies a default implementation), and a bound method is
always truthy in Python. -/
def AsyncActionM.on_error_truthy {PL R Exn : Type} (_ : AsyncActionM PL R Exn) :
    Bool :=
  true

/-- Store._run_async_action: await the read-phase handler; on success run
the snapshot → on_success → diff → notify sequence; on an exception run the
same sequence with `on_error` when `async_action.on_error` is truthy,
otherwise re-raise. -/
def run_async_action {E PL R Exn : Type} (a : AsyncActionM PL R Exn)
    (subs : List (Subscriber E)) (t : StoreTree) (payload : PL) :
    Except Exn (StoreTree × (List Nat × Option E)) :=
  match a.handler t payload with
  | Except.ok result =>
      let r := process_action a.on_success t result
      Except.ok (r.1, notify_subscribers subs r.2)
  | Except.error e =>
      if a.on_error_truthy then
        let r := process_action a.on_error t e
        Except.ok (r.1, notify_subscribers subs r.2)
      else
        Except.error e

/-- C1 (code bug): an async action whose subclass declares no `on_error`
override still never re-raises: `async_action.on_error` is the base-class
default (a truthy bound method), so the dispatch of a raising read-phase
returns normally — unchanged state, zero notifications, error silently
swallowed — where the spec, the code's own docstrings and the repository's
tests say the error must propagate to the caller. -/
theorem async_error_swallowed_without_on_error :
    run_async_action (E := String)
        (AsyncActionM.mk (fun _ (_ : Unit) => Except.error "network error")
          (fun t (_ : Unit) => (t, ["result".data])) none)
        [(0, fun _ => Except.ok ())] [("result", Tree.leaf 0)] ()
      = Except.ok ([("result", Tree.leaf 0)], ([], none)) := rfl

/-! Agent-state validation (Store.validate_agent_state, Store.__init__) -/

/-- An entry of the `agent_state` dict: an `AgentState` instance carrying
its declared `agent_name`, or a value of some other runtime type. -/
inductive AgentEntry where
  | agentState (agent_name : String)
  | other (typeName : String)
deriving DecidableEq

/-- The value of the `agent_state` attribute when it is present. -/
inductive AgentStateAttr where
  | noneV
  | notADict (typeName : String)
  | dict (entries : List (String × AgentEntry))
deriving DecidableEq

/-- Validation failures, carrying the data the Python messages interpolate
(the ValueError names both the offending key and the mismatched name). -/
inductive ValidationError where
  | typeErrorNotDict
  | typeErrorEntry (key typeName : String)
  | valueErrorKeyMismatch (key agent_name : String)
deriving DecidableEq

/-- The per-entry walk of Store.validate_agent_state: for each key in dict
order, first the isinstance check, then the key/agent_name agreement. -/
def validate_entries : List (String × AgentEntry) → Except ValidationError Unit
  | [] => Except.ok ()
  | (key, AgentEntry.other tn) :: _ =>
      Except.error (ValidationError.typeErrorEntry key tn)
  | (key, AgentEntry.agentState name) :: rest =>
      if key = name then validate_entries rest
      else Except.error (ValidationError.valueErrorKeyMismatch key name)

/-- Store.validate_agent_state: `getattr(self, "agent_state", None)` yields
`None` for a missing attribute; return at once on `None`; TypeError when
the attribute is not a dict; otherwise walk the entries. -/
def validate_agent_state (attr : Option AgentStateAttr) : Except ValidationError Unit :=
  match attr.getD AgentStateAttr.noneV with
  | AgentStateAttr.noneV => Except.ok ()
  | AgentStateAttr.notADict _ => Except.error ValidationError.typeErrorNotDict
  | AgentStateAttr.dict entries => validate_entries entries

/-- A store object: its state tree together with its `agent_state`
attribute (`none` when the attribute was never assigned). -/
structure StoreM where
  tree : StoreTree
  agent_state : Option AgentStateAttr

/-- Store.__init__: after the state is assigned, validate the agent state
once; a validation exception propagates out of construction. -/
def store_init (tree : StoreTree) (attr : Option AgentStateAttr) :
    Except ValidationError StoreM :=
  match validate_agent_state attr with
  | Except.ok _ => Except.ok (StoreM.mk tree attr)
  | Except.error e => Except.error e

/-- Dispatch on a constructed store: the pipeline runs on the state tree
only; `agent_state` is carried along untouched and never re-validated. -/
def dispatchStore {E PL : Type} (subs : List (Subscriber E))
    (handler : StoreTree → PL → StoreTree × Scope) (s : StoreM) (payload : PL) :
    StoreM × (List Nat × Option E) :=
  let r := dispatch subs handler s.tree payload
  (StoreM.mk r.1 s.agent_state, r.2)

/-- C9: at construction the validation guard walks the `agent_state`
sub-map checking that each entry's declared `agent_name` equals its key:
a TypeError when the sub-map is not a dict, a ValueError naming the
offending key and the mismatched name at the first disagreeing entry,
success exactly when every entry agrees; construction surfaces the
validation error, and dispatch never re-runs validation (its result is
independent of the `agent_state` attribute). -/
theorem agent_state_validation {E PL : Type} :
    (∀ tn, validate_agent_state (some (AgentStateAttr.notADict tn))
        = Except.error ValidationError.typeErrorNotDict)
    ∧ (∀ entries, validate_entries entries = Except.ok ()
        ↔ ∀ ke ∈ entries, ∃ n, ke.2 = AgentEntry.agentState n ∧ ke.1 = n)
    ∧ (∀ (front : List (String × AgentEntry)) (key name : String)
        (rear : List (String × AgentEntry)),
        (∀ ke ∈ front, ∃ n, ke.2 = AgentEntry.agentState n ∧ ke.1 = n) →
        key ≠ name →
        validate_entries (front ++ (key, AgentEntry.agentState name) :: rear)
          = Except.error (ValidationError.valueErrorKeyMismatch key name))
    ∧ (∀ tree attr e, validate_agent_state attr = Except.error e →
        store_init tree attr = Except.error e)
    ∧ (∀ (subs : List (Subscriber E)) (handler : StoreTree → PL → StoreTree × Scope)
        (tree : StoreTree) (a a' : Option AgentStateAttr) (payload : PL),
        (dispatchStore subs handler (StoreM.mk tree a) payload).1.tree
          = (dispatchStore subs handler (StoreM.mk tree a') payload).1.tree
        ∧ (dispatchStore subs handler (StoreM.mk tree a) payload).2
          = (dispatchStore subs handler (StoreM.mk tree a') payload).2) := by
  refine ⟨fun tn => rfl, ?_, ?_, ?_, ?_⟩
  · intro entries
    induction entries with
    | nil => simp [validate_entries]
    | cons ke rest ih =>
      obtain ⟨k, e⟩ := ke
      cases e with
      | agentState n =>
        by_cases hk : k = n
        · subst hk
          simp [validate_entries, ih]
        · simp [validate_entries, hk]
          intro hnk
          exact absurd hnk.symm hk
      | other tn => simp [validate_entries]
  · intro front key name rear
    induction front with
    | nil =>
      intro _ hne
      simp [validate_entries, hne]
    | cons ke rest ih =>
      intro h hne
      obtain ⟨k, e⟩ := ke
      obtain ⟨n, hn, hkn⟩ := h (k, e) (List.mem_cons_self _ _)
      simp only at hn
      subst hn
      simp only at hkn
      subst hkn
      simpa [validate_entries] using ih (fun x hx => h x (List.mem_cons_of_mem _ hx)) hne
  · intro tree attr e h
    simp [store_init, h]
  · intro subs handler tree a a' payload
    exact ⟨rfl, rfl⟩

/-- Witness for C9: the entry under key `"executor"` declares
`agent_name = "exec"`; validation raises the ValueError carrying that key
and name. -/
theorem agent_state_validation_witness :
    validate_entries [("planner", AgentEntry.agentState "planner"),
        ("executor", AgentEntry.agentState "exec")]
      = Except.error (ValidationError.valueErrorKeyMismatch "executor" "exec") := by
  have h := (@agent_state_validation Unit Unit).2.2.1
  exact h [("planner", AgentEntry.agentState "planner")] "executor" "exec" []
    (by
      intro ke hke
      simp only [List.mem_singleton] at hke
      subst hke
      exact ⟨"planner", rfl, rfl⟩)
    (by decide)

/-- C10: when the `agent_state` attribute is missing or `None`,
construction-time validation returns without raising; a validation error
can only arise from a present, non-None `agent_state` attribute. -/
theorem construction_validation_none_ok :
    (∀ tree, store_init tree none = Except.ok (StoreM.mk tree none))
    ∧ (∀ tree, store_init tree (some AgentStateAttr.noneV)
        = Except.ok (StoreM.mk tree (some AgentStateAttr.noneV)))
    ∧ ∀ attr e, validate_agent_state attr = Except.error e →
        ∃ v, attr = some v ∧ v ≠ AgentStateAttr.noneV := by
  refine ⟨fun tree => rfl, fun tree => rfl, ?_⟩
  intro attr e h
  match attr with
  | none => exact absurd h (by simp [validate_agent_state])
  | some AgentStateAttr.noneV => exact absurd h (by simp [validate_agent_state])
  | some (AgentStateAttr.notADict tn) => exact ⟨_, rfl, by simp⟩
  | some (AgentStateAttr.dict entries) => exact ⟨_, rfl, by simp⟩

/-- Witness for C10: a non-dict `agent_state` attribute raising a TypeError
is indeed present and non-None. -/
theorem construction_validation_none_ok_witness :
    ∃ v, (some (AgentStateAttr.notADict "list") : Option AgentStateAttr) = some v
      ∧ v ≠ AgentStateAttr.noneV :=
  construction_validation_none_ok.2.2 (some (AgentStateAttr.notADict "list"))
    ValidationError.typeErrorNotDict rfl

/-! FanoutCoordinator

The module `agent_lib.store.Fanouts` is imported by its tests
(`tests/store/test_fanouts_LLM.py`) but is absent from the source tree, so
the coordinator is modelled from the specification (§4.5 FanoutCoordinator
and the FanoutRegistration data model). -/

/-- Modelled from the spec: the `TaskResult{succeeded, result}` value passed
to a resolver (module `agent_lib.store.Fanouts` is missing from the source
tree). -/
structure TaskResult where
  resolved : Bool
  success : Bool
  result : String
deriving DecidableEq

/-- Modelled from the spec: the per-task status
`TaskStatus{resolved, succeeded, result}` kept in a fanout registration
(module `agent_lib.store.Fanouts` is missing from the source tree). -/
structure TaskStatus where
  resolved : Bool
  success : Bool
  result : String
deriving DecidableEq

/-- Modelled from the spec: a FanoutRegistration holds a description and an
ordered set of task names with their statuses (module
`agent_lib.store.Fanouts` is missing from the source tree). -/
structure FanoutReg where
  description : String
  tasks : List (String × TaskStatus)
deriving DecidableEq

/-- Modelled from the spec: the aggregate
`FanoutResult{fanoutId, description, successCount, failureCount,
allSucceeded, perTaskResults}` passed to `onComplete` (module
`agent_lib.store.Fanouts` is missing from the source tree). -/
structure FanoutResultM where
  fanout_id : String
  fanout_description : String
  success_count : Nat
  failure_count : Nat
  all_succeeded : Bool
  tasks : List (String × TaskStatus)
deriving DecidableEq

/-- Modelled from the spec: the coordinator's programmer errors — duplicate
creation, unknown fanout or task lookup, and double resolution (module
`agent_lib.store.Fanouts` is missing from the source tree). -/
inductive FanoutError where
  | alreadyExists (fanout_id : String)
  | doesNotExist (fanout_id : String)
  | taskNotInFanout (fanout_id task_name : String)
  | alreadyResolved (fanout_id task_name : String)
deriving DecidableEq

/-- Modelled from the spec: the coordinator state — the active registry,
the fanout ids holding an internal watcher subscription, and the recorded
`onComplete` invocations in order (module `agent_lib.store.Fanouts` is
missing from the source tree). -/
structure FanoutsState where
  registry : List (String × FanoutReg)
  watchers : List String
  events : List FanoutResultM
deriving DecidableEq

/-- Registry lookup by fanout id. -/
def lookupReg : List (String × FanoutReg) → String → Option FanoutReg
  | [], _ => none
  | (k, r) :: rest, id => if k = id then some r else lookupReg rest id

/-- Task lookup by task name inside a registration. -/
def lookupTask : List (String × TaskStatus) → String → Option TaskStatus
  | [], _ => none
  | (k, st) :: rest, n => if k = n then some st else lookupTask rest n

/-- Status of a freshly created, unresolved task. -/
def initialStatus : TaskStatus := TaskStatus.mk false false ""

/-- Modelled from the spec: `create(fanoutId, description, taskNames,
onComplete)` — fails if the id is already active, initializes every task as
unresolved, installs one internal watcher subscription (module
`agent_lib.store.Fanouts` is missing from the source tree). -/
def create (s : FanoutsState) (id desc : String) (task_names : List String) :
    Except FanoutError FanoutsState :=
  if (lookupReg s.registry id).isSome then
    Except.error (FanoutError.alreadyExists id)
  else
    Except.ok (FanoutsState.mk
      (s.registry ++ [(id, FanoutReg.mk desc
        (task_names.map (fun n => (n, initialStatus))))])
      (s.watchers ++ [id]) s.events)

/-- Mark one task of a registration resolved with the given result. -/
def setTask (tasks : List (String × TaskStatus)) (n : String) (tr : TaskResult) :
    List (String × TaskStatus) :=
  tasks.map (fun p =>
    if p.1 = n then (p.1, TaskStatus.mk true tr.success tr.result) else p)

/-- Whether every task of a registration has resolved. -/
def allResolved (tasks : List (String × TaskStatus)) : Bool :=
  tasks.all (fun p => p.2.resolved)

/-- Number of tasks that resolved with success. -/
def countSuccess (tasks : List (String × TaskStatus)) : Nat :=
  (tasks.filter (fun p => p.2.success)).length

/-- Number of tasks that resolved with failure. -/
def countFailure (tasks : List (String × TaskStatus)) : Nat :=
  (tasks.filter (fun p => !p.2.success)).length

/-- Modelled from the spec: build the aggregate FanoutResult at completion;
`successCount + failureCount = N` and `allSucceeded = (failureCount = 0)`
(module `agent_lib.store.Fanouts` is missing from the source tree). -/
def mkFanoutResult (id : String) (reg : FanoutReg) : FanoutResultM :=
  FanoutResultM.mk id reg.description (countSuccess reg.tasks)
    (countFailure reg.tasks) (countFailure reg.tasks == 0) reg.tasks

/-- Replace a registration in the registry. -/
def setReg (registry : List (String × FanoutReg)) (id : String) (reg : FanoutReg) :
    List (String × FanoutReg) :=
  registry.map (fun p => if p.1 = id then (p.1, reg) else p)

/-- Remove a registration from the registry. -/
def removeReg (registry : List (String × FanoutReg)) (id : String) :
    List (String × FanoutReg) :=
  registry.filter (fun p => !(p.1 == id))

/-- Tear down the internal watcher subscription of a fanout. -/
def removeWatcher (watchers : List String) (id : String) : List String :=
  watchers.filter (fun w => !(w == id))

/-- Modelled from the spec: one invocation of the resolver for
`(fanoutId, taskName)` — lookup errors for unknown ids, an
"already resolved" error on double resolution; after marking the task, the
watcher checks whether every task has now resolved and, at that moment,
invokes `onComplete` exactly once (recorded as an event), removes the
fanout's registration and tears down its watcher (module
`agent_lib.store.Fanouts` is missing from the source tree). -/
def resolve (s : FanoutsState) (id task : String) (tr : TaskResult) :
    Except FanoutError FanoutsState :=
  match lookupReg s.registry id with
  | none => Except.error (FanoutError.doesNotExist id)
  | some reg =>
    match lookupTask reg.tasks task with
    | none => Except.error (FanoutError.taskNotInFanout id task)
    | some st =>
      if st.resolved then Except.error (FanoutError.alreadyResolved id task)
      else if allResolved (setTask reg.tasks task tr) then
        Except.ok (FanoutsState.mk (removeReg s.registry id)
          (removeWatcher s.watchers id)
          (s.events ++ [mkFanoutResult id
            (FanoutReg.mk reg.description (setTask reg.tasks task tr))]))
      else
        Except.ok (FanoutsState.mk
          (setReg s.registry id
            (FanoutReg.mk reg.description (setTask reg.tasks task tr)))
          s.watchers s.events)

/-- A resolver invocation as seen by the caller that catches the raise: an
error leaves the coordinator state unchanged. -/
def applyResolve (id : String) (s : FanoutsState) (c : String × TaskResult) :
    FanoutsState :=
  match resolve s id c.1 c.2 with
  | Except.ok s2 => s2
  | Except.error _ => s

/-- Run a sequence of resolver invocations against one fanout. -/
def runResolves (id : String) (s : FanoutsState) :
    List (String × TaskResult) → FanoutsState
  | [] => s
  | c :: rest => runResolves id (applyResolve id s c) rest

/-- Number of `onComplete` invocations recorded for a fanout id. -/
def countEvents (s : FanoutsState) (id : String) : Nat :=
  (s.events.filter (fun r => r.fanout_id == id)).length

/-- The coordinator state of a freshly constructed store. -/
def emptyFanouts : FanoutsState := FanoutsState.mk [] [] []

/-- The per-fanout invariant: either the fanout is still pending — its
registration present with the declared task names, not yet fully resolved,
its watcher installed, zero completions fired — or it has completed —
registration gone, watcher gone, exactly one completion fired. -/
def FanInv (id : String) (ts : List String) (s : FanoutsState) : Prop :=
  (∃ reg, lookupReg s.registry id = some reg
      ∧ reg.tasks.map Prod.fst = ts
      ∧ allResolved reg.tasks = false
      ∧ id ∈ s.watchers
      ∧ countEvents s id = 0)
  ∨ (lookupReg s.registry id = none ∧ id ∉ s.watchers ∧ countEvents s id = 1)

theorem lookupReg_removeReg (l : List (String × FanoutReg)) (id : String) :
    lookupReg (removeReg l id) id = none := by
  induction l with
  | nil => rfl
  | cons p rest ih =>
    obtain ⟨k, r⟩ := p
    by_cases hk : k = id
    · simpa [removeReg, List.filter_cons, hk] using ih
    · simpa [removeReg, List.filter_cons, hk, lookupReg] using ih

theorem not_mem_removeWatcher (ws : List String) (id : String) :
    id ∉ removeWatcher ws id := by
  intro h
  have := (List.mem_filter.mp h).2
  simp at this

theorem lookupReg_setReg (l : List (String × FanoutReg)) (id : String)
    (reg reg' : FanoutReg) (h : lookupReg l id = some reg) :
    lookupReg (setReg l id reg') id = some reg' := by
  induction l with
  | nil => cases h
  | cons p rest ih =>
    obtain ⟨k, r⟩ := p
    by_cases hk : k = id
    · subst hk
      show lookupReg ((if k = k then (k, reg') else (k, r)) :: setReg rest k reg') k
        = some reg'
      rw [if_pos rfl, lookupReg, if_pos rfl]
    · rw [lookupReg, if_neg hk] at h
      show lookupReg ((if k = id then (k, reg') else (k, r)) :: setReg rest id reg') id
        = some reg'
      rw [if_neg hk, lookupReg, if_neg hk]
      exact ih h

theorem map_fst_setTask (tasks : List (String × TaskStatus)) (n : String)
    (tr : TaskResult) :
    (setTask tasks n tr).map Prod.fst = tasks.map Prod.fst := by
  induction tasks with
  | nil => rfl
  | cons p rest ih =>
    by_cases hp : p.1 = n
    · simp only [setTask, List.map_cons] at ih ⊢
      simp [hp, ih]
    · simp only [setTask, List.map_cons] at ih ⊢
      simp [hp, ih]

theorem countEvents_complete (s : FanoutsState) (id : String) (reg : FanoutReg) :
    countEvents (FanoutsState.mk (removeReg s.registry id)
      (removeWatcher s.watchers id) (s.events ++ [mkFanoutResult id reg])) id
      = countEvents s id + 1 := by
  simp [countEvents, List.filter_append, mkFanoutResult]

theorem resolve_unknown (s : FanoutsState) (id task : String) (tr : TaskResult)
    (hnone : lookupReg s.registry id = none) :
    resolve s id task tr = Except.error (FanoutError.doesNotExist id) := by
  simp [resolve, hnone]

theorem resolve_already_resolved (s : FanoutsState) (id task : String)
    (tr : TaskResult) (reg : FanoutReg) (st : TaskStatus)
    (hreg : lookupReg s.registry id = some reg)
    (htask : lookupTask reg.tasks task = some st) (hrsv : st.resolved = true) :
    resolve s id task tr = Except.error (FanoutError.alreadyResolved id task) := by
  simp [resolve, hreg, htask, hrsv]

theorem resolve_ok_elim (s : FanoutsState) (id task : String) (tr : TaskResult)
    (reg : FanoutReg) (hreg : lookupReg s.registry id = some reg)
    (s2 : FanoutsState) (hres : resolve s id task tr = Except.ok s2) :
    ∃ st, lookupTask reg.tasks task = some st ∧ st.resolved = false
      ∧ ((allResolved (setTask reg.tasks task tr) = true
          ∧ s2 = FanoutsState.mk (removeReg s.registry id)
              (removeWatcher s.watchers id)
              (s.events ++ [mkFanoutResult id
                (FanoutReg.mk reg.description (setTask reg.tasks task tr))]))
        ∨ (allResolved (setTask reg.tasks task tr) = false
          ∧ s2 = FanoutsState.mk
              (setReg s.registry id
                (FanoutReg.mk reg.description (setTask reg.tasks task tr)))
              s.watchers s.events)) := by
  simp only [resolve, hreg] at hres
  cases htask : lookupTask reg.tasks task with
  | none =>
    simp only [htask] at hres
    exact absurd hres (by simp)
  | some st =>
    simp only [htask] at hres
    by_cases hrsv : st.resolved = true
    · rw [if_pos hrsv] at hres
      exact absurd hres (by simp)
    · have hrsvf : st.resolved = false := by
        revert hrsv; cases st.resolved <;> simp
      rw [if_neg hrsv] at hres
      by_cases hall : allResolved (setTask reg.tasks task tr) = true
      · rw [if_pos hall] at hres
        injection hres with h2
        exact ⟨st, rfl, hrsvf, Or.inl ⟨hall, h2.symm⟩⟩
      · have hallf : allResolved (setTask reg.tasks task tr) = false := by
          revert hall; cases allResolved (setTask reg.tasks task tr) <;> simp
        rw [if_neg hall] at hres
        injection hres with h2
        exact ⟨st, rfl, hrsvf, Or.inr ⟨hallf, h2.symm⟩⟩

theorem applyResolve_inv (id : String) (ts : List String) (s : FanoutsState)
    (hInv : FanInv id ts s) (c : String × TaskResult) :
    FanInv id ts (applyResolve id s c) := by
  unfold applyResolve
  cases hres : resolve s id c.1 c.2 with
  | error e => exact hInv
  | ok s2 =>
    rcases hInv with ⟨reg, hreg, hkeys, hnall, hw, hev⟩ | ⟨hnone, _, _⟩
    · obtain ⟨st, htask, hrsvf, hcases⟩ := resolve_ok_elim s id c.1 c.2 reg hreg s2 hres
      rcases hcases with ⟨hall, rfl⟩ | ⟨hallf, rfl⟩
      · right
        refine ⟨lookupReg_removeReg _ _, not_mem_removeWatcher _ _, ?_⟩
        rw [countEvents_complete, hev]
      · left
        refine ⟨FanoutReg.mk reg.description (setTask reg.tasks c.1 c.2),
          lookupReg_setReg _ _ _ _ hreg, ?_, hallf, hw, hev⟩
        simpa [map_fst_setTask] using hkeys
    · rw [resolve_unknown s id c.1 c.2 hnone] at hres
      cases hres

theorem runResolves_inv (id : String) (ts : List String) :
    ∀ (calls : List (String × TaskResult)) (s : FanoutsState),
      FanInv id ts s → FanInv id ts (runResolves id s calls)
  | [], _, h => h
  | c :: rest, s, h =>
      runResolves_inv id ts rest (applyResolve id s c) (applyResolve_inv id ts s h c)

theorem create_inv (id desc : String) (ts : List String) (hts : ts ≠ [])
    (s1 : FanoutsState) (hc : create emptyFanouts id desc ts = Except.ok s1) :
    FanInv id ts s1 := by
  have hc' : s1 = FanoutsState.mk
      [(id, FanoutReg.mk desc (ts.map (fun n => (n, initialStatus))))] [id] [] := by
    simp only [create, emptyFanouts, lookupReg, Option.isSome_none,
      Bool.false_eq_true, if_false, Except.ok.injEq] at hc
    exact hc.symm
  subst hc'
  left
  refine ⟨FanoutReg.mk desc (ts.map (fun n => (n, initialStatus))), ?_, ?_, ?_, ?_, rfl⟩
  · simp [lookupReg]
  · show ((ts.map (fun n => (n, initialStatus))).map Prod.fst) = ts
    clear hc hts
    induction ts with
    | nil => rfl
    | cons a l ih => simp_all
  · cases ts with
    | nil => exact absurd rfl hts
    | cons a l => simp [allResolved, initialStatus]
  · simp

/-- C2 (amended): for a fanout of N ≥ 1 named tasks, over any sequence of
resolver invocations `onComplete` fires at most once; while the fanout is
still registered it has fired zero times, and once the registration is gone
it has fired exactly once and the internal watcher is torn down; resolving
an already resolved task of a pending fanout raises "already resolved" (and,
leaving the state unchanged, does not re-fire `onComplete`); any resolver
invocation after completion raises the unknown-fanout lookup error; and a
successful resolution fires `onComplete` exactly when it resolves the last
task, which is also the moment the registration is removed. -/
theorem fanout_exactly_once (id desc : String) (ts : List String)
    (hts : ts ≠ []) (s1 : FanoutsState)
    (hcreate : create emptyFanouts id desc ts = Except.ok s1)
    (calls : List (String × TaskResult)) :
    countEvents (runResolves id s1 calls) id ≤ 1
    ∧ ((∃ reg, lookupReg (runResolves id s1 calls).registry id = some reg) →
        countEvents (runResolves id s1 calls) id = 0)
    ∧ (lookupReg (runResolves id s1 calls).registry id = none →
        countEvents (runResolves id s1 calls) id = 1
        ∧ id ∉ (runResolves id s1 calls).watchers)
    ∧ (∀ task tr reg st,
        lookupReg (runResolves id s1 calls).registry id = some reg →
        lookupTask reg.tasks task = some st → st.resolved = true →
        resolve (runResolves id s1 calls) id task tr
          = Except.error (FanoutError.alreadyResolved id task))
    ∧ (∀ task tr, lookupReg (runResolves id s1 calls).registry id = none →
        resolve (runResolves id s1 calls) id task tr
          = Except.error (FanoutError.doesNotExist id))
    ∧ (∀ task tr s2,
        resolve (runResolves id s1 calls) id task tr = Except.ok s2 →
        (countEvents s2 id = countEvents (runResolves id s1 calls) id + 1
          ↔ lookupReg s2.registry id = none)) := by
  have hInv := runResolves_inv id ts calls s1 (create_inv id desc ts hts s1 hcreate)
  refine ⟨?_, ?_, ?_, ?_, ?_, ?_⟩
  · rcases hInv with ⟨reg, _, _, _, _, hev⟩ | ⟨_, _, hev⟩ <;> omega
  · rintro ⟨reg, hreg⟩
    rcases hInv with ⟨reg2, _, _, _, _, hev⟩ | ⟨hnone, _, _⟩
    · exact hev
    · rw [hnone] at hreg
      cases hreg
  · intro hnone
    rcases hInv with ⟨reg2, hreg2, _, _, _, _⟩ | ⟨_, hw, hev⟩
    · rw [hnone] at hreg2
      cases hreg2
    · exact ⟨hev, hw⟩
  · intro task tr reg st hreg htask hrsv
    exact resolve_already_resolved _ id task tr reg st hreg htask hrsv
  · intro task tr hnone
    exact resolve_unknown _ id task tr hnone
  · intro task tr s2 hres
    rcases hInv with ⟨reg, hreg, hkeys, hnall, hw, hev⟩ | ⟨hnone, _, _⟩
    · obtain ⟨st, htask, hrsvf, hcases⟩ :=
        resolve_ok_elim _ id task tr reg hreg s2 hres
      rcases hcases with ⟨hall, rfl⟩ | ⟨hallf, rfl⟩
      · constructor
        · intro _
          exact lookupReg_removeReg _ _
        · intro _
          rw [countEvents_complete]
      · constructor
        · intro hlen
          have heq : countEvents (FanoutsState.mk
              (setReg (runResolves id s1 calls).registry id
                (FanoutReg.mk reg.description (setTask reg.tasks task tr)))
              (runResolves id s1 calls).watchers
              (runResolves id s1 calls).events) id
              = countEvents (runResolves id s1 calls) id := rfl
          omega
        · intro hnone2
          rw [lookupReg_setReg _ _ _ _ hreg] at hnone2
          cases hnone2
    · rw [resolve_unknown _ id task tr hnone] at hres
      cases hres

/-- Counterexample for C2 as frozen: in a single-task fanout the first
resolution completes the fanout and removes its registration (as the spec
prescribes), so invoking the same resolver a second time raises the
unknown-fanout lookup error, not an "already resolved" error. -/
theorem fanout_second_resolve_after_completion :
    create emptyFanouts "batch1" "desc" ["a"] = Except.ok
      (FanoutsState.mk [("batch1", FanoutReg.mk "desc" [("a", initialStatus)])]
        ["batch1"] [])
    ∧ resolve (FanoutsState.mk
        [("batch1", FanoutReg.mk "desc" [("a", initialStatus)])] ["batch1"] [])
        "batch1" "a" (TaskResult.mk true true "done")
      = Except.ok (FanoutsState.mk [] []
          [FanoutResultM.mk "batch1" "desc" 1 0 true
            [("a", TaskStatus.mk true true "done")]])
    ∧ resolve (FanoutsState.mk [] []
          [FanoutResultM.mk "batch1" "desc" 1 0 true
            [("a", TaskStatus.mk true true "done")]])
        "batch1" "a" (TaskResult.mk true true "done")
      = Except.error (FanoutError.doesNotExist "batch1")
    ∧ (FanoutError.doesNotExist "batch1"
        == FanoutError.alreadyResolved "batch1" "a") = false := by
  refine ⟨rfl, rfl, rfl, by decide⟩

/-- Witness for C2 (amended) at a concrete run: two tasks, a double
resolution of the first task in the middle of the run; `onComplete` has
fired at most once after the whole sequence. -/
theorem fanout_exactly_once_witness :
    countEvents (runResolves "b"
      (FanoutsState.mk
        [("b", FanoutReg.mk "d" [("a", initialStatus), ("c", initialStatus)])]
        ["b"] [])
      [("a", TaskResult.mk true true ""), ("a", TaskResult.mk true false ""),
        ("c", TaskResult.mk true true "")]) "b" ≤ 1 :=
  (fanout_exactly_once "b" "d" ["a", "c"] (by decide) _ rfl _).1

end AgentLib
